import Mathlib

/-!
Verification of `eggwars_spawners_filters_gen.py` (PGMPortMaps).

The script parses a map document, extracts generator regions whose `id`
attribute matches the Python regex `^team-(.+)-generator-(.+)-(\d+)$`,
filters them by a static timing table `CONFIG_GENERADORES`, sorts them,
and prints variable and spawner declarations.

We embed the script shallowly: the document is the list of `id` attributes
(in document iteration order, `none` for nodes without an `id`), the regex
match is modelled with Python's greedy backtracking semantics for this
particular pattern, and each print call becomes one element of the output
line list.
-/

namespace PGMPortMaps

/-- The separator `-generator-` of the regex, as a character list. -/
def sepChars : List Char := "-generator-".data

/-- A nonempty all-digit character list (the `\d+` part of the regex). -/
def isDigits (l : List Char) : Bool := !l.isEmpty && l.all Char.isDigit

/-- All ways to split `tail` as `g2 ++ "-" ++ g3` with `g2` nonempty and
`g3` nonempty all-digits, i.e. all matches of `(.+)-(\d+)$` against `tail`,
indexed by the split position `j` (the index of the hyphen), in increasing
order of `j`. -/
def tailSplits (tail : List Char) : List (Nat × List Char × List Char) :=
  (List.range tail.length).filterMap (fun j =>
    if 1 ≤ j ∧ (tail.drop j).take 1 = ['-'] ∧ isDigits (tail.drop (j + 1)) then
      some (j, tail.take j, tail.drop (j + 1))
    else none)

/-- Match `(.+)-(\d+)$` against `tail`, with a greedy first group: the split
at the largest viable hyphen position wins (Python backtracking semantics). -/
def matchTail (tail : List Char) : Option (List Char × List Char) :=
  match (tailSplits tail).getLast? with
  | some (_, g2, g3) => some (g2, g3)
  | none => none

/-- All ways to split `rest` (the text after `team-`) as
`g1 ++ "-generator-" ++ tl` with `g1` nonempty and `tl` matching
`(.+)-(\d+)$`, indexed by the position `i` where the separator starts,
in increasing order of `i`. -/
def sepCandidates (rest : List Char) : List (Nat × List Char × List Char × List Char) :=
  (List.range rest.length).filterMap (fun i =>
    if 1 ≤ i ∧ (rest.drop i).take sepChars.length = sepChars then
      match matchTail (rest.drop (i + sepChars.length)) with
      | some (g2, g3) => some (i, rest.take i, g2, g3)
      | none => none
    else none)

/-- The embedding of `re.match(r"^team-(.+)-generator-(.+)-(\d+)$", s)`:
the string must start with `team-`; the first group is greedy, so the
largest separator position whose remainder still matches `(.+)-(\d+)$`
wins; within it the second group is greedy as well.  Returns the three
captured groups (team colour, material, number). -/
def matchPatron (s : String) : Option (String × String × String) :=
  let cs := s.data
  if cs.take 5 = "team-".data then
    let rest := cs.drop 5
    match (sepCandidates rest).getLast? with
    | some (_, g1, g2, g3) => some (⟨g1⟩, ⟨g2⟩, ⟨g3⟩)
    | none => none
  else none

/-- One extracted generator region (the dict appended to
`generadores_encontrados`). -/
structure Gen where
  full_id : String
  color : String
  material : String
  num : String
  team_id : String
deriving DecidableEq, Repr

/-- The static timing table `CONFIG_GENERADORES`. -/
def CONFIG_GENERADORES : List (String × List (Nat × String)) :=
  [("iron", [(1, "1s"), (2, "0.75s"), (3, "0.5s"), (4, "0.25s")]),
   ("gold", [(1, "5s"), (2, "3.5s"), (3, "2s"), (4, "1s")]),
   ("diamond", [(1, "10s"), (2, "5s"), (3, "2.5s")])]

/-- Dictionary lookup `CONFIG_GENERADORES.get(m)`. -/
def configGet (m : String) : Option (List (Nat × String)) :=
  (CONFIG_GENERADORES.find? (fun p => decide (p.1 = m))).map (fun p => p.2)

/-- Processing of one document node: if it has an `id` attribute matching
the pattern and the captured material is configured, produce a region. -/
def extractOne (attr : Option String) : Option Gen :=
  match attr with
  | none => none
  | some region_id =>
    match matchPatron region_id with
    | none => none
    | some (color, material, num) =>
      if (configGet material).isSome then
        some { full_id := region_id, color := color, material := material,
               num := num, team_id := "team-" ++ color }
      else none

/-- The extraction loop over `root.iter()`: one pass over all nodes, in
document order, appending a region for each matching configured id. -/
def extractGens (doc : List (Option String)) : List Gen :=
  doc.filterMap extractOne

/-- Python string `<`: strict lexicographic comparison of the code-point
sequences. -/
def strLt : List Char → List Char → Bool
  | [], [] => false
  | [], _ :: _ => true
  | _ :: _, [] => false
  | a :: as, b :: bs =>
    if a.toNat < b.toNat then true
    else if b.toNat < a.toNat then false
    else strLt as bs

/-- Python string `≤` (the reflexive closure of `strLt`). -/
def strLe (l1 l2 : List Char) : Bool := strLt l1 l2 || decide (l1 = l2)

/-- The sort key comparison `(x.color, x.material, x.num)`: lexicographic
tuple order with Python string comparison (code-point lexicographic). -/
def genLe (a b : Gen) : Bool :=
  if a.color = b.color then
    if a.material = b.material then strLe a.num.data b.num.data
    else strLt a.material.data b.material.data
  else strLt a.color.data b.color.data

/-- `generadores_encontrados.sort(key=...)`: Python's stable sort by the
tuple key, modelled by the (stable) merge sort with `genLe`. -/
def sortGens (gens : List Gen) : List Gen := gens.mergeSort genLe

/-- One printed `<variable .../>` declaration. -/
structure EmittedVariable where
  filter_id : String
  var_name : String
  team_id : String
  value : Nat
deriving DecidableEq, Repr

/-- The internal variable name `team_generator_{material}_{num}`. -/
def varName (gen : Gen) : String := "team_generator_" ++ gen.material ++ "_" ++ gen.num

/-- The level-0 variable of a region (value `0`, filter id `{id}-lv0`). -/
def lv0Var (gen : Gen) : EmittedVariable :=
  { filter_id := gen.full_id ++ "-lv0", var_name := varName gen,
    team_id := gen.team_id, value := 0 }

/-- The first variable loop: one level-0 variable per region, in order. -/
def lv0Vars (gens : List Gen) : List EmittedVariable := gens.map lv0Var

/-- `max_levels = 4` in the script. -/
def max_levels : Nat := 4

/-- The level-`i` variable of a region (value `i`, filter id `{id}-lv{i}`). -/
def lvVar (i : Nat) (gen : Gen) : EmittedVariable :=
  { filter_id := gen.full_id ++ "-lv" ++ toString i, var_name := varName gen,
    team_id := gen.team_id, value := i }

/-- The inner body of the second variable loop at level `i`: one variable
per region whose material reaches level `i`.  (Extraction guarantees the
material is configured, so the `getD []` default is never taken.) -/
def levelVarsAt (i : Nat) (gens : List Gen) : List EmittedVariable :=
  gens.filterMap (fun gen =>
    if i ≤ ((configGet gen.material).getD []).length then some (lvVar i gen)
    else none)

/-- The second variable loop: levels `1..max_levels` in order. -/
def levelVars (gens : List Gen) : List EmittedVariable :=
  (List.range' 1 max_levels).flatMap (fun i => levelVarsAt i gens)

/-- All emitted variables of the variable pass, in emission order. -/
def allVars (gens : List Gen) : List EmittedVariable := lv0Vars gens ++ levelVars gens

/-- One printed `<spawner>` block. -/
structure EmittedSpawner where
  spawn_region : String
  delay : String
  filter_ref : String
  item_material : String
  item_amount : Nat
deriving DecidableEq, Repr

/-- The item-material mapping: default `iron ingot`, with `gold`,
`diamond`, `emerald` handled by the elif chain. -/
def itemMaterial (m : String) : String :=
  if m = "gold" then "gold ingot"
  else if m = "diamond" then "diamond"
  else if m = "emerald" then "emerald"
  else "iron ingot"

/-- The spawner declarations of one region: one per `(lvl, delay)` entry of
its material's timing list, in table order. -/
def spawnersOfGen (gen : Gen) : List EmittedSpawner :=
  ((configGet gen.material).getD []).map (fun nd =>
    { spawn_region := gen.full_id, delay := nd.2,
      filter_ref := gen.full_id ++ "-lv" ++ toString nd.1,
      item_material := itemMaterial gen.material, item_amount := 1 })

/-- The spawner pass over the sorted region list. -/
def spawners (gens : List Gen) : List EmittedSpawner := gens.flatMap spawnersOfGen

/-- The printed text of one variable declaration. -/
def renderVar (v : EmittedVariable) : String :=
  "\t<variable id=\"" ++ v.filter_id ++ "\" var=\"" ++ v.var_name ++ "\" team=\""
    ++ v.team_id ++ "\">" ++ toString v.value ++ "</variable>"

/-- The printed text of one spawner block (three lines). -/
def renderSpawner (s : EmittedSpawner) : List String :=
  ["\t<spawner spawn-region=\"" ++ s.spawn_region ++ "\" delay=\"" ++ s.delay
      ++ "\" filter=\"" ++ s.filter_ref ++ "\">",
   "\t    <item amount=\"" ++ toString s.item_amount ++ "\" material=\""
      ++ s.item_material ++ "\"/>",
   "\t</spawner>"]

/-- The informational message printed when no region matches. -/
def noRegionsMsg : String :=
  "No se encontraron regiones con el formato 'team-*-generator-*-*' en el mapa."

/-- The message printed by the top-level `except` clause. -/
def errorMsg (e : String) : String := "Error procesando el archivo: " ++ e

/-- The whole run of `generar_xml_eggwars`: the input is either a parse
failure (any exception while reading the file, carrying its message) or
the parsed document; the output is the list of printed lines, one element
per `print` call, in order. -/
def run (input : Except String (List (Option String))) : List String :=
  match input with
  | .error e => [errorMsg e]
  | .ok doc =>
    let gens := extractGens doc
    if gens.isEmpty then [noRegionsMsg]
    else
      let sorted := sortGens gens
      ["\n", "", "", "\n\t"] ++ (lv0Vars sorted).map renderVar
        ++ (List.range' 1 max_levels).flatMap
            (fun i => "\n\t" :: (levelVarsAt i sorted).map renderVar)
        ++ ["\n\n", ""] ++ (spawners sorted).flatMap renderSpawner

/-! ### Concrete inputs used by the witnesses -/

/-- A one-node document with a configured iron generator id. -/
def docIron : List (Option String) := [some "team-red-generator-iron-1"]

/-- The region extracted from `docIron`. -/
def genIron : Gen :=
  { full_id := "team-red-generator-iron-1", color := "red",
    material := "iron", num := "1", team_id := "team-red" }

/-- A document with no matching configured identifier (emerald is not in
the timing table). -/
def docNoMatch : List (Option String) :=
  [some "hello", none, some "team-blue-generator-emerald-1"]

/-- A document in which two distinct nodes carry the same matching id. -/
def dupDoc : List (Option String) :=
  [some "team-red-generator-iron-1", some "team-red-generator-iron-1"]

/-- Number of occurrences of `pat` as a sublist of consecutive characters
of `l`. -/
def occCount (pat l : List Char) : Nat :=
  (List.range (l.length + 1)).countP (fun i => decide ((l.drop i).take pat.length = pat))

/-- A decomposition of an identifier in the grammar
`team-<team>-generator-<material>-<number>` with nonempty team and
material and a nonempty all-digit number. -/
def validSplit (s t m n : String) : Prop :=
  s.data = "team-".data ++ t.data ++ sepChars ++ m.data ++ '-' :: n.data ∧
  t.data ≠ [] ∧ m.data ≠ [] ∧ isDigits n.data = true

/-! ### Helper lemmas about the static configuration table -/

/-- The three configured materials and their timing lists. -/
lemma configGet_cases (m : String) (c : List (Nat × String)) (h : configGet m = some c) :
    (m = "iron" ∧ c = [(1, "1s"), (2, "0.75s"), (3, "0.5s"), (4, "0.25s")]) ∨
    (m = "gold" ∧ c = [(1, "5s"), (2, "3.5s"), (3, "2s"), (4, "1s")]) ∨
    (m = "diamond" ∧ c = [(1, "10s"), (2, "5s"), (3, "2.5s")]) := by
  by_cases h1 : m = "iron"
  · subst h1
    have e : configGet "iron" = some [(1, "1s"), (2, "0.75s"), (3, "0.5s"), (4, "0.25s")] := rfl
    rw [e] at h
    exact Or.inl ⟨rfl, (Option.some.inj h).symm⟩
  · by_cases h2 : m = "gold"
    · subst h2
      have e : configGet "gold" = some [(1, "5s"), (2, "3.5s"), (3, "2s"), (4, "1s")] := rfl
      rw [e] at h
      exact Or.inr (Or.inl ⟨rfl, (Option.some.inj h).symm⟩)
    · by_cases h3 : m = "diamond"
      · subst h3
        have e : configGet "diamond" = some [(1, "10s"), (2, "5s"), (3, "2.5s")] := rfl
        rw [e] at h
        exact Or.inr (Or.inr ⟨rfl, (Option.some.inj h).symm⟩)
      · exfalso
        have e1 : (decide ((("iron" : String), [((1 : Nat), ("1s" : String)), (2, "0.75s"),
            (3, "0.5s"), (4, "0.25s")]).1 = m)) = false :=
          decide_eq_false (fun e => h1 e.symm)
        have e2 : (decide ((("gold" : String), [((1 : Nat), ("5s" : String)), (2, "3.5s"),
            (3, "2s"), (4, "1s")]).1 = m)) = false :=
          decide_eq_false (fun e => h2 e.symm)
        have e3 : (decide ((("diamond" : String), [((1 : Nat), ("10s" : String)), (2, "5s"),
            (3, "2.5s")]).1 = m)) = false :=
          decide_eq_false (fun e => h3 e.symm)
        simp only [configGet, CONFIG_GENERADORES, List.find?, e1, e2, e3] at h
        simp at h

/-- Every configured level list has at most `max_levels = 4` entries. -/
lemma configGet_length_le (m : String) (c : List (Nat × String)) (h : configGet m = some c) :
    c.length ≤ 4 := by
  rcases configGet_cases m c h with ⟨_, rfl⟩ | ⟨_, rfl⟩ | ⟨_, rfl⟩ <;> decide

/-- The level fields of a configured list are exactly `1, 2, ..., length`. -/
lemma configGet_fst (m : String) (c : List (Nat × String)) (h : configGet m = some c) :
    c.map Prod.fst = List.range' 1 c.length := by
  rcases configGet_cases m c h with ⟨_, rfl⟩ | ⟨_, rfl⟩ | ⟨_, rfl⟩ <;> rfl

/-! ### Helper lemmas about extraction -/

/-- Characterization of a successful single-node extraction. -/
lemma extractOne_eq_some (attr : Option String) (gen : Gen) (h : extractOne attr = some gen) :
    attr = some gen.full_id ∧
    matchPatron gen.full_id = some (gen.color, gen.material, gen.num) ∧
    (configGet gen.material).isSome = true ∧
    gen.team_id = "team-" ++ gen.color := by
  match attr with
  | none => simp [extractOne] at h
  | some id =>
    match hm : matchPatron id with
    | none => simp [extractOne, hm] at h
    | some (color, material, num) =>
      simp only [extractOne, hm] at h
      by_cases hc : (configGet material).isSome
      · simp only [hc, if_true] at h
        cases h
        exact ⟨rfl, hm, hc, rfl⟩
      · simp [hc] at h

/-- Properties holding of every extracted region. -/
lemma mem_extractGens_props (doc : List (Option String)) (gen : Gen)
    (h : gen ∈ extractGens doc) :
    matchPatron gen.full_id = some (gen.color, gen.material, gen.num) ∧
    (configGet gen.material).isSome = true ∧
    gen.team_id = "team-" ++ gen.color := by
  rcases List.mem_filterMap.mp h with ⟨attr, _, hone⟩
  exact ⟨(extractOne_eq_some attr gen hone).2.1, (extractOne_eq_some attr gen hone).2.2.1,
    (extractOne_eq_some attr gen hone).2.2.2⟩

/-! ### The sort comparison is a total preorder (the lexicographic key order) -/

lemma strLt_irrefl : ∀ l : List Char, strLt l l = false
  | [] => rfl
  | a :: as => by simp [strLt, strLt_irrefl as]

lemma strLt_trans : ∀ l1 l2 l3 : List Char,
    strLt l1 l2 = true → strLt l2 l3 = true → strLt l1 l3 = true
  | l1, [], _, h1, _ => by cases l1 <;> simp [strLt] at h1
  | [], _ :: _, [], _, h2 => by simp [strLt] at h2
  | [], _ :: _, _ :: _, _, _ => rfl
  | _ :: _, _ :: _, [], _, h2 => by simp [strLt] at h2
  | a :: as, b :: bs, c :: cs, h1, h2 => by
    simp only [strLt] at h1 h2 ⊢
    by_cases hab : a.toNat < b.toNat <;> by_cases hbc : b.toNat < c.toNat
    · rw [if_pos (Nat.lt_trans hab hbc)]
    · by_cases hcb : c.toNat < b.toNat
      · rw [if_neg hbc, if_pos hcb] at h2
        cases h2
      · rw [if_pos (show a.toNat < c.toNat by omega)]
    · by_cases hba : b.toNat < a.toNat
      · rw [if_neg hab, if_pos hba] at h1
        cases h1
      · rw [if_pos (show a.toNat < c.toNat by omega)]
    · by_cases hba : b.toNat < a.toNat
      · rw [if_neg hab, if_pos hba] at h1
        cases h1
      · by_cases hcb : c.toNat < b.toNat
        · rw [if_neg hbc, if_pos hcb] at h2
          cases h2
        · rw [if_neg hab, if_neg hba] at h1
          rw [if_neg hbc, if_neg hcb] at h2
          rw [if_neg (show ¬a.toNat < c.toNat by omega),
            if_neg (show ¬c.toNat < a.toNat by omega)]
          exact strLt_trans as bs cs h1 h2

lemma strLt_asymm (l1 l2 : List Char) (h : strLt l1 l2 = true) : strLt l2 l1 = false := by
  by_contra hne
  have h2 : strLt l2 l1 = true := by
    cases hv : strLt l2 l1
    · exact absurd hv hne
    · rfl
  have := strLt_trans l1 l2 l1 h h2
  rw [strLt_irrefl] at this
  cases this

lemma char_eq_of_toNat_eq (a b : Char) (h : a.toNat = b.toNat) : a = b :=
  Char.eq_of_val_eq (UInt32.toNat.inj h)

lemma strLt_connex : ∀ l1 l2 : List Char, l1 ≠ l2 → (strLt l1 l2 || strLt l2 l1) = true
  | [], [], h => absurd rfl h
  | [], _ :: _, _ => rfl
  | _ :: _, [], _ => rfl
  | a :: as, b :: bs, h => by
    simp only [strLt]
    by_cases hab : a.toNat < b.toNat
    · simp [hab]
    · by_cases hba : b.toNat < a.toNat
      · simp [hab, hba]
      · have hchar : a = b := char_eq_of_toNat_eq a b (by omega)
        subst hchar
        have htail : as ≠ bs := fun e => h (by rw [e])
        simp only [if_neg hab, if_neg hba]
        exact strLt_connex as bs htail

lemma strLe_total (l1 l2 : List Char) : (strLe l1 l2 || strLe l2 l1) = true := by
  by_cases h : l1 = l2
  · simp [strLe, h]
  · have := strLt_connex l1 l2 h
    rcases Bool.or_eq_true_iff.mp this with h1 | h1 <;> simp [strLe, h1]

lemma strLe_trans (l1 l2 l3 : List Char)
    (h1 : strLe l1 l2 = true) (h2 : strLe l2 l3 = true) : strLe l1 l3 = true := by
  rcases Bool.or_eq_true_iff.mp h1 with ha | ha
  · rcases Bool.or_eq_true_iff.mp h2 with hb | hb
    · simp [strLe, strLt_trans l1 l2 l3 ha hb]
    · have : l2 = l3 := of_decide_eq_true hb
      simp [strLe, this ▸ ha]
  · have : l1 = l2 := of_decide_eq_true ha
    rw [this]
    exact h2

lemma str_ne_of_string_ne (s t : String) (h : ¬s = t) : s.data ≠ t.data :=
  fun e => h (String.ext e)

lemma genLe_trans (a b c : Gen) (hab : genLe a b) (hbc : genLe b c) : genLe a c := by
  simp only [genLe] at hab hbc ⊢
  by_cases h1 : a.color = b.color <;> by_cases h2 : b.color = c.color
  · -- colors all equal
    rw [if_pos h1] at hab
    rw [if_pos h2] at hbc
    rw [if_pos (h1.trans h2)]
    by_cases h3 : a.material = b.material <;> by_cases h4 : b.material = c.material
    · rw [if_pos h3] at hab
      rw [if_pos h4] at hbc
      rw [if_pos (h3.trans h4)]
      exact strLe_trans _ _ _ hab hbc
    · rw [if_pos h3] at hab
      rw [if_neg h4] at hbc
      rw [if_neg (fun e => h4 (h3.symm.trans e))]
      rw [h3]
      exact hbc
    · rw [if_neg h3] at hab
      rw [if_pos h4] at hbc
      rw [if_neg (fun e => h3 (e.trans h4.symm)), ← h4]
      exact hab
    · rw [if_neg h3] at hab
      rw [if_neg h4] at hbc
      by_cases h5 : a.material = c.material
      · exfalso
        rw [h5] at hab
        have := strLt_asymm _ _ hbc
        rw [hab] at this
        cases this
      · rw [if_neg h5]
        exact strLt_trans _ _ _ hab hbc
  · rw [if_pos h1] at hab
    rw [if_neg h2] at hbc
    rw [if_neg (fun e => h2 (h1.symm.trans e)), h1]
    exact hbc
  · rw [if_neg h1] at hab
    rw [if_pos h2] at hbc
    rw [if_neg (fun e => h1 (e.trans h2.symm)), ← h2]
    exact hab
  · rw [if_neg h1] at hab
    rw [if_neg h2] at hbc
    by_cases h5 : a.color = c.color
    · exfalso
      rw [h5] at hab
      have := strLt_asymm _ _ hbc
      rw [hab] at this
      cases this
    · rw [if_neg h5]
      exact strLt_trans _ _ _ hab hbc

lemma genLe_total (a b : Gen) : genLe a b || genLe b a := by
  simp only [genLe]
  by_cases h1 : a.color = b.color
  · rw [if_pos h1, if_pos h1.symm]
    by_cases h2 : a.material = b.material
    · rw [if_pos h2, if_pos h2.symm]
      exact strLe_total _ _
    · rw [if_neg h2, if_neg (fun e => h2 e.symm)]
      exact strLt_connex _ _ (str_ne_of_string_ne _ _ h2)
  · rw [if_neg h1, if_neg (fun e => h1 e.symm)]
    exact strLt_connex _ _ (str_ne_of_string_ne _ _ h1)

/-! ### Per-region emission lemmas -/

lemma levelVarsAt_singleton (i : Nat) (gen : Gen) (c : List (Nat × String))
    (h : configGet gen.material = some c) :
    levelVarsAt i [gen] = if i ≤ c.length then [lvVar i gen] else [] := by
  simp only [levelVarsAt, List.filterMap_cons, List.filterMap_nil, h, Option.getD_some]
  by_cases hc : i ≤ c.length
  · simp [hc]
  · simp [hc]

lemma flatMap_range'_if {α : Type} (L : Nat) (hL : L ≤ 4) (g : Nat → α) :
    (List.range' 1 4).flatMap (fun i => if i ≤ L then [g i] else []) =
      (List.range' 1 L).map g := by
  interval_cases L <;> rfl

lemma levelVars_singleton (gen : Gen) (c : List (Nat × String))
    (h : configGet gen.material = some c) :
    levelVars [gen] = (List.range' 1 c.length).map (fun i => lvVar i gen) := by
  have hstep : levelVars [gen] =
      (List.range' 1 4).flatMap (fun i => if i ≤ c.length then [lvVar i gen] else []) := by
    simp only [levelVars, max_levels]
    congr 1
    funext i
    exact levelVarsAt_singleton i gen c h
  rw [hstep, flatMap_range'_if c.length (configGet_length_le _ _ h)]

lemma lv0Var_eq_lvVar (gen : Gen) : lv0Var gen = lvVar 0 gen := by
  have h : gen.full_id ++ "-lv0" = gen.full_id ++ "-lv" ++ toString 0 := by
    rw [String.append_assoc]
    rfl
  simp [lv0Var, lvVar, h]

lemma allVars_singleton (gen : Gen) (c : List (Nat × String))
    (h : configGet gen.material = some c) :
    allVars [gen] = (List.range' 0 (c.length + 1)).map (fun i => lvVar i gen) := by
  have hr : List.range' 0 (c.length + 1) = 0 :: List.range' 1 c.length := by
    rw [List.range'_succ]
  rw [hr, List.map_cons, allVars, levelVars_singleton gen c h, lv0Vars,
    List.map_cons, List.map_nil, lv0Var_eq_lvVar]
  rfl

lemma spawnersOfGen_eq (gen : Gen) (c : List (Nat × String))
    (h : configGet gen.material = some c) :
    spawnersOfGen gen = c.map (fun nd =>
      { spawn_region := gen.full_id, delay := nd.2,
        filter_ref := gen.full_id ++ "-lv" ++ toString nd.1,
        item_material := itemMaterial gen.material, item_amount := 1 }) := by
  simp [spawnersOfGen, h]

lemma spawner_filter_refs (gen : Gen) (c : List (Nat × String))
    (h : configGet gen.material = some c) :
    (spawnersOfGen gen).map (fun s => s.filter_ref) =
      (levelVars [gen]).map (fun v => v.filter_id) := by
  rw [spawnersOfGen_eq gen c h, levelVars_singleton gen c h, List.map_map, List.map_map,
    ← configGet_fst _ _ h, List.map_map]
  rfl

/-! ### Tracing emitted items back to regions -/

lemma mem_allVars_trace (gens : List Gen) (v : EmittedVariable) (h : v ∈ allVars gens) :
    ∃ gen ∈ gens, v ∈ allVars [gen] := by
  rw [allVars] at h
  rcases List.mem_append.mp h with h | h
  · rcases List.mem_map.mp h with ⟨gen, hg, rfl⟩
    exact ⟨gen, hg, by simp [allVars, lv0Vars]⟩
  · rw [levelVars] at h
    rcases List.mem_flatMap.mp h with ⟨i, hi, hv⟩
    rcases List.mem_filterMap.mp hv with ⟨gen, hg, hsome⟩
    refine ⟨gen, hg, ?_⟩
    rw [allVars]
    apply List.mem_append_right
    rw [levelVars]
    refine List.mem_flatMap.mpr ⟨i, hi, ?_⟩
    exact List.mem_filterMap.mpr ⟨gen, List.mem_singleton.mpr rfl, hsome⟩

lemma mem_allVars_singleton (gen : Gen) (v : EmittedVariable) (h : v ∈ allVars [gen]) :
    ∃ i, v = lvVar i gen := by
  rw [allVars] at h
  rcases List.mem_append.mp h with h | h
  · simp only [lv0Vars, List.map_cons, List.map_nil, List.mem_singleton] at h
    exact ⟨0, by rw [h, lv0Var_eq_lvVar]⟩
  · rw [levelVars] at h
    rcases List.mem_flatMap.mp h with ⟨i, _, hv⟩
    rcases List.mem_filterMap.mp hv with ⟨g, hg, hsome⟩
    simp only [List.mem_singleton] at hg
    subst hg
    split at hsome
    · exact ⟨i, (Option.some.inj hsome).symm⟩
    · cases hsome

lemma mem_sortGens (gens : List Gen) (gen : Gen) :
    gen ∈ sortGens gens ↔ gen ∈ gens := by
  rw [sortGens]
  exact List.mem_mergeSort

/-! ### Claim theorems -/

/-- C1: for every node id matching the grammar, extraction records the
Region with the captured team, material and index iff the captured
material is a key of the timing table; non-matching ids and ids whose
material is unconfigured produce no Region (and extraction is total, so
no error is raised). -/
theorem extraction_matches_iff_configured (doc : List (Option String))
    (id color material num : String)
    (hmatch : matchPatron id = some (color, material, num)) :
    extractGens doc = doc.filterMap extractOne ∧
    (extractOne (some id) =
        some { full_id := id, color := color, material := material,
               num := num, team_id := "team-" ++ color }
      ↔ (configGet material).isSome) ∧
    (∀ s : String, matchPatron s = none → extractOne (some s) = none) ∧
    extractOne none = none := by
  refine ⟨rfl, ?_, ?_, rfl⟩
  · simp only [extractOne, hmatch]
    by_cases hc : (configGet material).isSome
    · simp [hc]
    · simp [hc]
  · intro s hs
    simp [extractOne, hs]

/-- Witness for C1 at the concrete id `team-red-generator-iron-1`. -/
theorem extraction_matches_iff_configured_witness :
    matchPatron "team-red-generator-iron-1" = some ("red", "iron", "1") ∧
    (extractOne (some "team-red-generator-iron-1") =
        some { full_id := "team-red-generator-iron-1", color := "red", material := "iron",
               num := "1", team_id := "team-" ++ "red" }
      ↔ (configGet "iron").isSome) :=
  ⟨rfl, (extraction_matches_iff_configured docIron "team-red-generator-iron-1"
    "red" "iron" "1" rfl).2.1⟩

/-- C2: for every extracted region whose material has `L` configured
levels, the variable pass emits exactly `L + 1` variables for it, one per
level `0..L`, the level-`k` variable valued `k`, with filter id
`{full-id}-lv{k}` and a team-independent internal name derived from
material and numeric index. -/
theorem variable_pass_per_region (doc : List (Option String)) (gen : Gen)
    (hmem : gen ∈ extractGens doc) :
    ∃ c, configGet gen.material = some c ∧
      allVars [gen] = (List.range' 0 (c.length + 1)).map (fun k => lvVar k gen) ∧
      (allVars [gen]).length = c.length + 1 ∧
      (∀ k, (lvVar k gen).value = k ∧
        (lvVar k gen).filter_id = gen.full_id ++ "-lv" ++ toString k ∧
        (lvVar k gen).var_name = "team_generator_" ++ gen.material ++ "_" ++ gen.num) := by
  obtain ⟨c, hc⟩ := Option.isSome_iff_exists.mp (mem_extractGens_props doc gen hmem).2.1
  refine ⟨c, hc, allVars_singleton gen c hc, ?_, fun k => ⟨rfl, rfl, rfl⟩⟩
  rw [allVars_singleton gen c hc, List.length_map, List.length_range']

/-- Witness for C2 at the concrete extracted region `genIron`. -/
theorem variable_pass_per_region_witness :
    genIron ∈ extractGens docIron ∧
    (∃ c, configGet genIron.material = some c ∧
      allVars [genIron] = (List.range' 0 (c.length + 1)).map (fun k => lvVar k genIron) ∧
      (allVars [genIron]).length = c.length + 1 ∧
      (∀ k, (lvVar k genIron).value = k ∧
        (lvVar k genIron).filter_id = genIron.full_id ++ "-lv" ++ toString k ∧
        (lvVar k genIron).var_name =
          "team_generator_" ++ genIron.material ++ "_" ++ genIron.num)) :=
  ⟨by decide, variable_pass_per_region docIron genIron (by decide)⟩

/-- C3: for every extracted region, the spawner pass emits exactly one
spawn declaration per `(level, delay)` entry of its material, in table
order, referencing the region's full id, carrying the entry's delay, with
filter reference `{full-id}-lv{level}` — exactly the filter identifiers of
the level variables of that region, in the same order. -/
theorem spawner_pass_per_region (doc : List (Option String)) (gen : Gen)
    (hmem : gen ∈ extractGens doc) :
    ∃ c, configGet gen.material = some c ∧
      spawnersOfGen gen = c.map (fun nd =>
        { spawn_region := gen.full_id, delay := nd.2,
          filter_ref := gen.full_id ++ "-lv" ++ toString nd.1,
          item_material := itemMaterial gen.material, item_amount := 1 }) ∧
      (spawnersOfGen gen).length = c.length ∧
      (spawnersOfGen gen).map (fun s => s.filter_ref) =
        (levelVars [gen]).map (fun v => v.filter_id) ∧
      spawners [gen] = spawnersOfGen gen := by
  obtain ⟨c, hc⟩ := Option.isSome_iff_exists.mp (mem_extractGens_props doc gen hmem).2.1
  refine ⟨c, hc, spawnersOfGen_eq gen c hc, ?_, spawner_filter_refs gen c hc, ?_⟩
  · rw [spawnersOfGen_eq gen c hc, List.length_map]
  · simp [spawners]

/-- Witness for C3 at the concrete extracted region `genIron`. -/
theorem spawner_pass_per_region_witness :
    genIron ∈ extractGens docIron ∧
    (∃ c, configGet genIron.material = some c ∧
      spawnersOfGen genIron = c.map (fun nd =>
        { spawn_region := genIron.full_id, delay := nd.2,
          filter_ref := genIron.full_id ++ "-lv" ++ toString nd.1,
          item_material := itemMaterial genIron.material, item_amount := 1 }) ∧
      (spawnersOfGen genIron).length = c.length ∧
      (spawnersOfGen genIron).map (fun s => s.filter_ref) =
        (levelVars [genIron]).map (fun v => v.filter_id) ∧
      spawners [genIron] = spawnersOfGen genIron) :=
  ⟨by decide, spawner_pass_per_region docIron genIron (by decide)⟩

/-- C5: a parse failure produces exactly one printed line, the error
message of the top-level exception handler, and in particular no variable
or spawner declaration is emitted. -/
theorem parse_failure_single_error (e : String) :
    run (Except.error e) = [errorMsg e] ∧ (run (Except.error e)).length = 1 :=
  ⟨rfl, rfl⟩

/-- C6: a document that parses but contains no identifier yielding a
configured region produces exactly the informational no-regions message
and nothing else. -/
theorem no_match_informational_message (doc : List (Option String))
    (h : ∀ attr ∈ doc, extractOne attr = none) :
    run (Except.ok doc) = [noRegionsMsg] := by
  have he : extractGens doc = [] := List.filterMap_eq_nil_iff.mpr h
  simp [run, he]

/-- Witness for C6 at a concrete document with an unconfigured material
and a non-matching id. -/
theorem no_match_informational_message_witness :
    run (Except.ok docNoMatch) = [noRegionsMsg] :=
  no_match_informational_message docNoMatch (by decide)

/-- C7: every emitted spawn declaration has item amount 1 and its item
material is the display name mapped from the region's internal material
key; the mapping sends iron to iron ingot, gold to gold ingot, and passes
diamond and emerald through unchanged. -/
theorem spawner_item_payload (doc : List (Option String)) (s : EmittedSpawner)
    (hs : s ∈ spawners (sortGens (extractGens doc))) :
    s.item_amount = 1 ∧
    (∃ gen ∈ extractGens doc, s.spawn_region = gen.full_id ∧
      s.item_material = itemMaterial gen.material) ∧
    itemMaterial "iron" = "iron ingot" ∧ itemMaterial "gold" = "gold ingot" ∧
    itemMaterial "diamond" = "diamond" ∧ itemMaterial "emerald" = "emerald" := by
  rcases List.mem_flatMap.mp hs with ⟨gen, hgen, hsg⟩
  rw [mem_sortGens] at hgen
  rw [spawnersOfGen] at hsg
  rcases List.mem_map.mp hsg with ⟨nd, -, rfl⟩
  exact ⟨rfl, ⟨gen, hgen, rfl, rfl⟩, rfl, rfl, rfl, rfl⟩

/-- Witness for C7 at the first spawner emitted for `docIron`. -/
theorem spawner_item_payload_witness :
    ({ spawn_region := "team-red-generator-iron-1", delay := "1s",
       filter_ref := "team-red-generator-iron-1-lv1",
       item_material := "iron ingot", item_amount := 1 } : EmittedSpawner).item_amount = 1 ∧
    (∃ gen ∈ extractGens docIron,
      ({ spawn_region := "team-red-generator-iron-1", delay := "1s",
         filter_ref := "team-red-generator-iron-1-lv1",
         item_material := "iron ingot", item_amount := 1 } : EmittedSpawner).spawn_region =
          gen.full_id ∧
      ({ spawn_region := "team-red-generator-iron-1", delay := "1s",
         filter_ref := "team-red-generator-iron-1-lv1",
         item_material := "iron ingot", item_amount := 1 } : EmittedSpawner).item_material =
          itemMaterial gen.material) ∧
    itemMaterial "iron" = "iron ingot" ∧ itemMaterial "gold" = "gold ingot" ∧
    itemMaterial "diamond" = "diamond" ∧ itemMaterial "emerald" = "emerald" :=
  spawner_item_payload docIron _ (by
    have h : extractGens docIron = [genIron] := by decide
    rw [h, sortGens, List.mergeSort_singleton]
    decide)

/-- C8: the region sort is a permutation of the input, sorted by the key
(team colour, material, numeric index as a string), stable (a pair already
in key order keeps its relative order), and idempotent (sorting a second
time changes nothing). -/
theorem sort_stable_deterministic (gens : List Gen) (a b : Gen)
    (hab : List.Sublist [a, b] gens) (hle : genLe a b = true) :
    List.Perm (sortGens gens) gens ∧
    (sortGens gens).Pairwise (fun x y => genLe x y = true) ∧
    List.Sublist [a, b] (sortGens gens) ∧
    sortGens (sortGens gens) = sortGens gens := by
  have hs : (sortGens gens).Pairwise (fun x y => genLe x y = true) :=
    List.sorted_mergeSort genLe_trans genLe_total gens
  refine ⟨List.mergeSort_perm gens genLe, hs, ?_, ?_⟩
  · exact List.pair_sublist_mergeSort genLe_trans genLe_total hle hab
  · exact List.mergeSort_of_sorted hs

/-- Witness for C8 at a concrete two-element region list. -/
theorem sort_stable_deterministic_witness :
    List.Perm (sortGens [genIron, genIron]) [genIron, genIron] ∧
    (sortGens [genIron, genIron]).Pairwise (fun x y => genLe x y = true) ∧
    List.Sublist [genIron, genIron] (sortGens [genIron, genIron]) ∧
    sortGens (sortGens [genIron, genIron]) = sortGens [genIron, genIron] :=
  sort_stable_deterministic [genIron, genIron] genIron genIron
    (List.Sublist.refl _) (by decide)

/-- C9: every emitted variable's owning-team attribute is the literal
`team-` concatenated with the captured team label of the region it was
emitted for, with no condition on the rest of the document. -/
theorem variable_team_attribute (doc : List (Option String)) (v : EmittedVariable)
    (hv : v ∈ allVars (sortGens (extractGens doc))) :
    ∃ gen ∈ extractGens doc, gen.team_id = "team-" ++ gen.color ∧
      v.team_id = "team-" ++ gen.color := by
  rcases mem_allVars_trace _ v hv with ⟨gen, hgen, hvg⟩
  rw [mem_sortGens] at hgen
  rcases mem_allVars_singleton gen v hvg with ⟨i, rfl⟩
  have ht := (mem_extractGens_props doc gen hgen).2.2
  exact ⟨gen, hgen, ht, by rw [← ht]; rfl⟩

/-- Witness for C9 at the level-0 variable emitted for `docIron`. -/
theorem variable_team_attribute_witness :
    ∃ gen ∈ extractGens docIron, gen.team_id = "team-" ++ gen.color ∧
      ({ filter_id := "team-red-generator-iron-1-lv0", var_name := "team_generator_iron_1",
         team_id := "team-red", value := 0 } : EmittedVariable).team_id =
        "team-" ++ gen.color :=
  variable_team_attribute docIron _ (by
    have h : extractGens docIron = [genIron] := by decide
    rw [h, sortGens, List.mergeSort_singleton]
    decide)

/-- C4 counterexample: a document whose two nodes carry the same matching
id yields two extracted Regions with the same source identifier — the
extraction does not deduplicate. -/
theorem regions_not_deduplicated :
    (extractGens dupDoc).map (fun g => g.full_id) =
      ["team-red-generator-iron-1", "team-red-generator-iron-1"] ∧
    ¬ ((extractGens dupDoc).map (fun g => g.full_id)).Nodup := by
  refine ⟨by decide, by decide⟩

/-- C4 (amended): every emitted variable and spawner traces back to a
Region of the extracted list, and the list has exactly one Region per
matching document node — duplicates included, so several nodes with the
same matching id yield several identical Regions. -/
theorem emissions_trace_to_regions (doc : List (Option String)) :
    (∀ v ∈ allVars (sortGens (extractGens doc)),
      ∃ gen ∈ extractGens doc, v ∈ allVars [gen]) ∧
    (∀ s ∈ spawners (sortGens (extractGens doc)),
      ∃ gen ∈ extractGens doc, s ∈ spawnersOfGen gen) ∧
    (extractGens doc).length = doc.countP (fun attr => (extractOne attr).isSome) := by
  refine ⟨?_, ?_, ?_⟩
  · intro v hv
    rcases mem_allVars_trace _ v hv with ⟨gen, hgen, hvg⟩
    rw [mem_sortGens] at hgen
    exact ⟨gen, hgen, hvg⟩
  · intro s hs
    rcases List.mem_flatMap.mp hs with ⟨gen, hgen, hsg⟩
    rw [mem_sortGens] at hgen
    exact ⟨gen, hgen, hsg⟩
  · exact List.length_filterMap_eq_countP extractOne doc

/-- Witness for the amended C4 at the level-0 variable emitted for
`docIron`. -/
theorem emissions_trace_to_regions_witness :
    ∃ gen ∈ extractGens docIron,
      ({ filter_id := "team-red-generator-iron-1-lv0",
         var_name := "team_generator_iron_1",
         team_id := "team-red", value := 0 } : EmittedVariable) ∈ allVars [gen] :=
  (emissions_trace_to_regions docIron).1 _ (by
    have h : extractGens docIron = [genIron] := by decide
    rw [h, sortGens, List.mergeSort_singleton]
    decide)

/-! ### Machinery for the greedy regex maximality analysis -/

lemma getLast?_filterMap_range_max {β : Type} (f : Nat → Option β) (idx : β → Nat)
    (hidx : ∀ i b, f i = some b → idx b = i) (n : Nat) (b : β)
    (h : ((List.range n).filterMap f).getLast? = some b) :
    f (idx b) = some b ∧ ∀ i b2, i < n → f i = some b2 → idx b2 ≤ idx b := by
  induction n with
  | zero => simp at h
  | succ n ih =>
    rw [List.range_succ, List.filterMap_append] at h
    cases hfn : f n with
    | some c =>
      have hcons : List.filterMap f [n] = [c] := by
        simp [List.filterMap_cons, hfn]
      rw [hcons, List.getLast?_concat] at h
      have hb : c = b := Option.some.inj h
      subst hb
      constructor
      · rw [hidx n c hfn]
        exact hfn
      · intro i b2 hi hfi
        rw [hidx i b2 hfi, hidx n c hfn]
        exact Nat.lt_succ_iff.mp hi
    | none =>
      have hnil : List.filterMap f [n] = [] := by
        simp [List.filterMap_cons, hfn]
      rw [hnil, List.append_nil] at h
      obtain ⟨h1, h2⟩ := ih h
      refine ⟨h1, fun i b2 hi hfi => ?_⟩
      rcases Nat.lt_succ_iff_lt_or_eq.mp hi with hi2 | rfl
      · exact h2 i b2 hi2 hfi
      · rw [hfi] at hfn
        cases hfn

lemma getLast?_filterMap_range_isSome {β : Type} (f : Nat → Option β) (n i : Nat) (b : β)
    (hi : i < n) (hb : f i = some b) :
    ∃ c, ((List.range n).filterMap f).getLast? = some c := by
  have hmem : b ∈ (List.range n).filterMap f :=
    List.mem_filterMap.mpr ⟨i, List.mem_range.mpr hi, hb⟩
  have hne : (List.range n).filterMap f ≠ [] := by
    intro e
    rw [e] at hmem
    cases hmem
  exact Option.isSome_iff_exists.mp (List.getLast?_isSome.mpr hne)

/-- The split function scanned by `tailSplits` records its own index. -/
lemma tailSplits_idx (tail : List Char) (i : Nat) (b : Nat × List Char × List Char)
    (h : (if 1 ≤ i ∧ (tail.drop i).take 1 = ['-'] ∧ isDigits (tail.drop (i + 1)) then
        some (i, tail.take i, tail.drop (i + 1))
      else none) = some b) : b.1 = i := by
  split at h
  · cases h
    rfl
  · simp at h

/-- At a valid `g4 ++ "-" ++ digits` split of `tail`, the function scanned
by `tailSplits` produces a candidate, and the split position is in range. -/
lemma tailSplits_f_at (tail g4 g5 : List Char) (hsplit : tail = g4 ++ '-' :: g5)
    (hne : g4 ≠ []) (hdig : isDigits g5 = true) :
    (if 1 ≤ g4.length ∧ (tail.drop g4.length).take 1 = ['-'] ∧
        isDigits (tail.drop (g4.length + 1)) then
      some (g4.length, tail.take g4.length, tail.drop (g4.length + 1))
     else none) = some (g4.length, tail.take g4.length, tail.drop (g4.length + 1)) ∧
    g4.length < tail.length := by
  have hd : tail.drop g4.length = '-' :: g5 := by
    rw [hsplit]
    exact List.drop_left g4 ('-' :: g5)
  have hd1 : tail.drop (g4.length + 1) = g5 := by
    have hdd : tail.drop (g4.length + 1) = (tail.drop g4.length).drop 1 := by
      rw [List.drop_drop]
    rw [hdd, hd]
    rfl
  constructor
  · refine if_pos ⟨List.length_pos.mpr hne, ?_, ?_⟩
    · rw [hd]
      rfl
    · rw [hd1]
      exact hdig
  · rw [hsplit, List.length_append, List.length_cons]
    omega

/-- Soundness and greedy maximality of `matchTail`: the returned split is
a valid decomposition of `tail` as `first ++ "-" ++ digits` and its first
group is the longest among all such decompositions. -/
lemma matchTail_spec (tail g2 g3 : List Char) (h : matchTail tail = some (g2, g3)) :
    tail = g2 ++ '-' :: g3 ∧ g2 ≠ [] ∧ isDigits g3 = true ∧
    ∀ g4 g5 : List Char, tail = g4 ++ '-' :: g5 → g4 ≠ [] → isDigits g5 = true →
      g4.length ≤ g2.length := by
  rw [matchTail] at h
  cases hl : (tailSplits tail).getLast? with
  | none =>
    rw [hl] at h
    cases h
  | some b =>
    rw [hl] at h
    obtain ⟨j, gg2, gg3⟩ := b
    have h2 : (gg2, gg3) = (g2, g3) := Option.some.inj h
    injection h2 with e1 e2
    subst e1
    subst e2
    have hmax := getLast?_filterMap_range_max
      (fun i => if 1 ≤ i ∧ (tail.drop i).take 1 = ['-'] ∧ isDigits (tail.drop (i + 1)) then
          some (i, tail.take i, tail.drop (i + 1))
        else none)
      (fun b => b.1) (fun i b hb => tailSplits_idx tail i b hb) tail.length (j, gg2, gg3) hl
    obtain ⟨hfj, hmaxi⟩ := hmax
    simp only [] at hfj
    split at hfj
    · rename_i hcond
      have h3 := Option.some.inj hfj
      injection h3 with h4 h5
      injection h5 with h6 h7
      obtain ⟨hj1, hdash, hdig⟩ := hcond
      have hdj : tail.drop j = '-' :: tail.drop (j + 1) := by
        cases hd : tail.drop j with
        | nil =>
          rw [hd] at hdash
          simp at hdash
        | cons c rest =>
          rw [hd] at hdash
          have ht1 : (c :: rest).take 1 = [c] := rfl
          rw [ht1] at hdash
          injection hdash with hc _
          have hrest : rest = tail.drop (j + 1) := by
            have hdd : tail.drop (j + 1) = (tail.drop j).drop 1 := by
              rw [List.drop_drop]
            rw [hdd, hd]
            rfl
          rw [hc, hrest]
      have hjlt : j < tail.length := by
        by_contra hge
        rw [List.drop_eq_nil_of_le (Nat.le_of_not_lt hge)] at hdj
        cases hdj
      have hlen_take : (tail.take j).length = j := by
        rw [List.length_take]
        exact Nat.min_eq_left (Nat.le_of_lt hjlt)
      refine ⟨?_, ?_, ?_, ?_⟩
      · rw [← h6, ← h7, ← hdj]
        exact (List.take_append_drop j tail).symm
      · rw [← h6]
        intro e
        rw [e] at hlen_take
        simp at hlen_take
        omega
      · rw [← h7]
        exact hdig
      · intro g4 g5 hsplit hne hdig5
        obtain ⟨hf4, hlt4⟩ := tailSplits_f_at tail g4 g5 hsplit hne hdig5
        have hle := hmaxi g4.length
          (g4.length, tail.take g4.length, tail.drop (g4.length + 1)) hlt4 hf4
        rw [← h6, hlen_take]
        exact hle
    · simp at hfj

/-- If `tail` admits a valid `first ++ "-" ++ digits` decomposition then
`matchTail` succeeds. -/
lemma matchTail_isSome (tail g4 g5 : List Char) (hsplit : tail = g4 ++ '-' :: g5)
    (hne : g4 ≠ []) (hdig : isDigits g5 = true) :
    ∃ p, matchTail tail = some p := by
  obtain ⟨hf4, hlt4⟩ := tailSplits_f_at tail g4 g5 hsplit hne hdig
  obtain ⟨c, hc⟩ := getLast?_filterMap_range_isSome
    (fun i => if 1 ≤ i ∧ (tail.drop i).take 1 = ['-'] ∧ isDigits (tail.drop (i + 1)) then
        some (i, tail.take i, tail.drop (i + 1))
      else none)
    tail.length g4.length (g4.length, tail.take g4.length, tail.drop (g4.length + 1)) hlt4 hf4
  obtain ⟨j, a, b⟩ := c
  refine ⟨(a, b), ?_⟩
  have hc2 : (tailSplits tail).getLast? = some (j, a, b) := hc
  rw [matchTail, hc2]

/-- The candidate function scanned by `sepCandidates` records its own
index. -/
lemma sepCandidates_idx (rest : List Char) (i : Nat)
    (b : Nat × List Char × List Char × List Char)
    (h : (if 1 ≤ i ∧ (rest.drop i).take sepChars.length = sepChars then
        match matchTail (rest.drop (i + sepChars.length)) with
        | some (g2, g3) => some (i, rest.take i, g2, g3)
        | none => none
      else none) = some b) : b.1 = i := by
  split at h
  · cases hmt : matchTail (rest.drop (i + sepChars.length)) with
    | some p =>
      rw [hmt] at h
      obtain ⟨p2, p3⟩ := p
      have h2 : some (i, rest.take i, p2, p3) = some b := h
      cases h2
      rfl
    | none =>
      rw [hmt] at h
      cases h
  · simp at h

/-- At a valid grammar decomposition of `rest` (the text after `team-`),
the function scanned by `sepCandidates` produces a candidate. -/
lemma sepCandidates_f_at (rest t2 m2 n2 : List Char)
    (hsplit : rest = t2 ++ (sepChars ++ (m2 ++ '-' :: n2)))
    (_hne : t2 ≠ []) (hmne : m2 ≠ []) (hdig : isDigits n2 = true) :
    rest.drop t2.length = sepChars ++ (m2 ++ '-' :: n2) ∧
    (rest.drop t2.length).take sepChars.length = sepChars ∧
    rest.drop (t2.length + sepChars.length) = m2 ++ '-' :: n2 ∧
    (∃ p, matchTail (rest.drop (t2.length + sepChars.length)) = some p) ∧
    t2.length < rest.length := by
  have hd : rest.drop t2.length = sepChars ++ (m2 ++ '-' :: n2) := by
    rw [hsplit]
    exact List.drop_left _ _
  have htake : (rest.drop t2.length).take sepChars.length = sepChars := by
    rw [hd]
    exact List.take_left _ _
  have hd2 : rest.drop (t2.length + sepChars.length) = m2 ++ '-' :: n2 := by
    have hdd : rest.drop (t2.length + sepChars.length) =
        (rest.drop t2.length).drop sepChars.length := by
      rw [List.drop_drop]
    rw [hdd, hd]
    exact List.drop_left _ _
  refine ⟨hd, htake, hd2, ?_, ?_⟩
  · rw [hd2]
    exact matchTail_isSome _ m2 n2 rfl hmne hdig
  · have hsl : sepChars.length = 11 := rfl
    rw [hsplit]
    simp only [List.length_append, List.length_cons]
    omega

/-- C10 (amended): the match decomposes the identifier along the grammar,
and among all decompositions `team-<team>-generator-<material>-<number>`
(team and material nonempty, number nonempty all-digits) the captured team
is the longest possible, and given the team, the captured material is the
longest possible.  The team therefore extends through the last separator
occurrence whose remainder still admits a material-number split; when some
later occurrence admits no such split, the captured material can itself
contain the separator. -/
theorem greedy_capture_maximal (s t m n : String)
    (h : matchPatron s = some (t, m, n)) :
    validSplit s t m n ∧
    ∀ t2 m2 n2 : String, validSplit s t2 m2 n2 →
      t2.data.length ≤ t.data.length ∧
      (t2 = t → m2.data.length ≤ m.data.length) := by
  simp only [matchPatron] at h
  split at h
  · rename_i hteam
    cases hl : (sepCandidates (s.data.drop 5)).getLast? with
    | none =>
      rw [hl] at h
      cases h
    | some b =>
      rw [hl] at h
      obtain ⟨i, g1, g2, g3⟩ := b
      have h2 : ((⟨g1⟩ : String), (⟨g2⟩ : String), (⟨g3⟩ : String)) = (t, m, n) :=
        Option.some.inj h
      injection h2 with e1 e23
      injection e23 with e2 e3
      subst e1
      subst e2
      subst e3
      have hmax := getLast?_filterMap_range_max
        (fun i => if 1 ≤ i ∧ ((s.data.drop 5).drop i).take sepChars.length = sepChars then
            match matchTail ((s.data.drop 5).drop (i + sepChars.length)) with
            | some (g2, g3) => some (i, (s.data.drop 5).take i, g2, g3)
            | none => none
          else none)
        (fun b => b.1) (fun i b hb => sepCandidates_idx (s.data.drop 5) i b hb)
        (s.data.drop 5).length (i, g1, g2, g3) hl
      obtain ⟨hfi, hmaxi⟩ := hmax
      simp only [] at hfi
      split at hfi
      · rename_i hcond
        obtain ⟨hi1, hsep⟩ := hcond
        cases hmt : matchTail ((s.data.drop 5).drop (i + sepChars.length)) with
        | none =>
          rw [hmt] at hfi
          cases hfi
        | some p =>
          rw [hmt] at hfi
          obtain ⟨p2, p3⟩ := p
          have h3 : (i, (s.data.drop 5).take i, p2, p3) = (i, g1, g2, g3) :=
            Option.some.inj hfi
          injection h3 with e4 h4
          injection h4 with h5 h6
          injection h6 with h7 h8
          rw [h7, h8] at hmt
          obtain ⟨hmt_split, hmt_ne, hmt_dig, hmt_max⟩ := matchTail_spec _ g2 g3 hmt
          have hsl : sepChars.length = 11 := rfl
          have hilen : i + sepChars.length ≤ s.data.length - 5 := by
            have hlentake := congrArg List.length hsep
            simp only [List.length_take, List.length_drop] at hlentake
            omega
          have hg1 : g1 = (s.data.drop 5).take i := h5.symm
          have hg1len : g1.length = i := by
            rw [hg1, List.length_take]
            simp only [List.length_drop]
            omega
          have hdropi : (s.data.drop 5).drop i = sepChars ++ (g2 ++ '-' :: g3) := by
            have hdd : (s.data.drop 5).drop (i + sepChars.length) =
                ((s.data.drop 5).drop i).drop sepChars.length := by
              simp only [List.drop_drop]
              congr 1
            calc (s.data.drop 5).drop i
                = ((s.data.drop 5).drop i).take sepChars.length
                    ++ ((s.data.drop 5).drop i).drop sepChars.length :=
                  (List.take_append_drop _ _).symm
              _ = sepChars ++ (g2 ++ '-' :: g3) := by
                  rw [hsep, ← hdd, hmt_split]
          have hrest_eq : s.data.drop 5 = g1 ++ (sepChars ++ (g2 ++ '-' :: g3)) := by
            calc s.data.drop 5
                = (s.data.drop 5).take i ++ (s.data.drop 5).drop i :=
                  (List.take_append_drop _ _).symm
              _ = g1 ++ (sepChars ++ (g2 ++ '-' :: g3)) := by rw [← hg1, hdropi]
          have hs_eq : s.data = "team-".data ++ (g1 ++ (sepChars ++ (g2 ++ '-' :: g3))) := by
            calc s.data = s.data.take 5 ++ s.data.drop 5 :=
                  (List.take_append_drop 5 s.data).symm
              _ = "team-".data ++ (g1 ++ (sepChars ++ (g2 ++ '-' :: g3))) := by
                  rw [hteam, hrest_eq]
          have hvalid : validSplit s ⟨g1⟩ ⟨g2⟩ ⟨g3⟩ := by
            refine ⟨?_, ?_, hmt_ne, hmt_dig⟩
            · show s.data = "team-".data ++ g1 ++ sepChars ++ g2 ++ '-' :: g3
              rw [hs_eq]
              simp [List.append_assoc]
            · show g1 ≠ []
              intro e
              rw [e] at hg1len
              simp at hg1len
              omega
          refine ⟨hvalid, ?_⟩
          intro t2 m2 n2 hvs
          obtain ⟨hsp2, hne2, hmne2, hdig2⟩ := hvs
          have hsp2r : s.data = "team-".data ++
              (t2.data ++ (sepChars ++ (m2.data ++ '-' :: n2.data))) := by
            rw [hsp2]
            simp [List.append_assoc]
          have hrest2 : s.data.drop 5 =
              t2.data ++ (sepChars ++ (m2.data ++ '-' :: n2.data)) := by
            have h5len : ("team-".data : List Char).length = 5 := rfl
            calc s.data.drop 5
                = ("team-".data ++
                    (t2.data ++ (sepChars ++ (m2.data ++ '-' :: n2.data)))).drop 5 := by
                  rw [← hsp2r]
              _ = t2.data ++ (sepChars ++ (m2.data ++ '-' :: n2.data)) :=
                  List.drop_left' h5len
          obtain ⟨hd, htake2, hd2, ⟨q, hq⟩, hlt2⟩ :=
            sepCandidates_f_at (s.data.drop 5) t2.data m2.data n2.data hrest2 hne2 hmne2 hdig2
          obtain ⟨q2, q3⟩ := q
          have hf2 : (fun i =>
              if 1 ≤ i ∧ ((s.data.drop 5).drop i).take sepChars.length = sepChars then
                match matchTail ((s.data.drop 5).drop (i + sepChars.length)) with
                | some (g2, g3) => some (i, (s.data.drop 5).take i, g2, g3)
                | none => none
              else none) t2.data.length =
              some (t2.data.length, (s.data.drop 5).take t2.data.length, q2, q3) := by
            simp only []
            rw [if_pos ⟨List.length_pos.mpr hne2, htake2⟩, hq]
          have hle_i := hmaxi t2.data.length
            (t2.data.length, (s.data.drop 5).take t2.data.length, q2, q3) hlt2 hf2
          have hle_i2 : t2.data.length ≤ i := hle_i
          constructor
          · show t2.data.length ≤ g1.length
            omega
          · intro hteq
            show m2.data.length ≤ g2.length
            have ht2g1 : t2.data = g1 := by
              rw [hteq]
            have ht2len : t2.data.length = i := by
              rw [ht2g1, hg1len]
            rw [ht2len] at hd2
            exact hmt_max m2.data n2.data hd2 hmne2 hdig2
      · simp at hfi
  · cases h

/-- C10 counterexample: in `team-t-generator-x-generator--5` the text
between the leading `team-` and the trailing `-5` contains the separator
twice, yet the team capture is `t` (it does not extend through the last
occurrence, whose remainder `-5` admits no material-number split) and the
captured material `x-generator-` does contain the separator. -/
theorem greedy_capture_counterexample :
    matchPatron "team-t-generator-x-generator--5" = some ("t", "x-generator-", "5") ∧
    ("team-t-generator-x-generator--5" : String) =
      "team-" ++ "t-generator-x-generator-" ++ "-5" ∧
    occCount sepChars "t-generator-x-generator-".data = 2 ∧
    occCount sepChars "x-generator-".data = 1 ∧
    ("t" : String) ≠ "t-generator-x" := by
  refine ⟨by decide, by decide, by decide, by decide, by decide⟩

/-- Witness for the amended C10 at the concrete id
`team-red-generator-iron-1`. -/
theorem greedy_capture_maximal_witness :
    validSplit "team-red-generator-iron-1" "red" "iron" "1" ∧
    ∀ t2 m2 n2 : String, validSplit "team-red-generator-iron-1" t2 m2 n2 →
      t2.data.length ≤ ("red" : String).data.length ∧
      (t2 = "red" → m2.data.length ≤ ("iron" : String).data.length) :=
  greedy_capture_maximal "team-red-generator-iron-1" "red" "iron" "1" (by decide)

end PGMPortMaps
